import Mathlib

/-!
Verification of the serve-static request-resolution pipeline (src/index.js).

The middleware is shallowly embedded: the module-level path cache is an
association list in insertion order (head = oldest, matching JS `Map`
iteration order), the per-request error/file event wiring is a fold over an
event list, and external collaborators (the `send` streaming engine, the
`encodeurl`/`escape-html` npm packages, `path.join`, `fs.existsSync`,
`send.mime.lookup`) are abstracted as function parameters.  Machine
integers do not occur; every quantity is a Nat or a String.
-/

namespace ServeStatic

/-! ## Path resolver cache (src/index.js lines 29-69)

JS `Map` preserves insertion order and `map.set` on an existing key keeps
its position; we model the cache as a `List (String × String)` whose head
is the oldest entry. -/

/-- Source: `var MAX_CACHE_SIZE = 1000`. -/
def MAX_CACHE_SIZE : Nat := 1000

/-- The cache: key/value pairs, oldest first (JS Map iteration order). -/
abbrev Cache := List (String × String)

/-- Source: `var cacheKey = root + '::' + pathname` (line 51). -/
def cacheKey (pathname root : String) : String := root ++ "::" ++ pathname

/-- `Map.prototype.has`/`get`: first (and, under key uniqueness, only) entry. -/
def cacheGet (c : Cache) (k : String) : Option String :=
  (c.find? (fun e => e.1 == k)).map (fun e => e.2)

/-- `Map.prototype.delete`: remove the entry with the given key. -/
def cacheDelete (c : Cache) (k : String) : Cache :=
  c.filter (fun e => e.1 != k)

/-- `Map.prototype.set` on a key known to be absent: append as newest. -/
def cacheSet (c : Cache) (k v : String) : Cache := c ++ [(k, v)]

/-- Source translation of `getCachedPath(pathname, root)` (lines 50-69):
on a hit, delete+set moves the entry to the most-recent position and its
stored value is returned; on a miss at capacity the first (oldest) Map key
is evicted, then the pathname is stored and returned.  Returns the value
together with the updated cache. -/
def getCachedPath (pathname root : String) (c : Cache) : String × Cache :=
  let k := cacheKey pathname root
  match cacheGet c k with
  | some current => (current, cacheSet (cacheDelete c k) k current)
  | none =>
      let c1 := if MAX_CACHE_SIZE ≤ c.length then c.tail else c
      (pathname, cacheSet c1 k pathname)

/-- `send(req, precompressed || cachedPath, opts)` (line 189): the path the
streaming engine actually receives. -/
def sendPath (precompressed : Option String) (cachedPath : String) : String :=
  precompressed.getD cachedPath

/-! ## Substring test and precompression negotiator (lines 167-186) -/

/-- `pat` occurs at the head of the text (character-by-character match). -/
def headMatches : List Char → List Char → Bool
  | [], _ => true
  | _ :: _, [] => false
  | p :: ps, c :: cs => (p == c) && headMatches ps cs

/-- `pat` occurs somewhere in the text. -/
def hasSub (pat : List Char) : List Char → Bool
  | [] => headMatches pat []
  | c :: cs => headMatches pat (c :: cs) || hasSub pat cs

/-- JS `s.indexOf(pat) !== -1`. -/
def strContains (s pat : String) : Bool := hasSub pat.toList s.toList

/-- Source lines 175-176: `if (candidate === '' || candidate === '/')
candidate = '/index.html'`. -/
def indexCandidate (cachedPath : String) : String :=
  if cachedPath == "" || cachedPath == "/" then "/index.html" else cachedPath

/-- Source translation of the negotiation block (lines 167-186).
`fsExists` abstracts `fs.existsSync`, `join` abstracts `path.join`.
Returns `some (precompressed, encoding)` or `none`. -/
def negotiate (fsExists : String → Bool) (join : String → String → String)
    (root cachedPath ae : String) : Option (String × String) :=
  let acceptBr := strContains ae "br"
  let acceptGzip := strContains ae "gzip"
  let candidate := indexCandidate cachedPath
  let abs := join root candidate
  if acceptBr && fsExists (abs ++ ".br") then some (candidate ++ ".br", "br")
  else if acceptGzip && fsExists (abs ++ ".gz") then some (candidate ++ ".gz", "gzip")
  else none

/-! ## Error / file event wiring (lines 150, 214-229) -/

/-- An engine error's `statusCode` property: `some n` when it is a number,
`none` when absent or not a number (JS `undefined < 500` is `false`). -/
abbrev StatusCode := Option Nat

/-- JS `err.statusCode < 500`: false when the property is absent or not
numeric, the numeric comparison otherwise. -/
def statusCodeLt500 : StatusCode → Bool
  | some n => decide (n < 500)
  | none => false

/-- How the dispatcher invokes the next-handler from the error listener. -/
inductive NextCall where
  | withErr (sc : StatusCode)
  | noArg
deriving DecidableEq

/-- Lifecycle notifications from the streaming engine relevant to the
forward-error flag. -/
inductive Event where
  | file
  | error (sc : StatusCode)
deriving DecidableEq

/-- Source line 150: `var forwardError = !fallthrough`. -/
def initForwardError (fallthrough : Bool) : Bool := !fallthrough

/-- Source lines 214-219: the `file` listener (which sets
`forwardError = true`) is only registered when `fallthrough` is enabled. -/
def onFileEvent (fallthrough fwd : Bool) : Bool :=
  if fallthrough then true else fwd

/-- Source lines 222-229: `if (forwardError || !(err.statusCode < 500))
next(err) else next()`. -/
def onErrorEvent (fwd : Bool) (sc : StatusCode) : NextCall :=
  if fwd || !(statusCodeLt500 sc) then NextCall.withErr sc else NextCall.noArg

/-- Effect of one engine event on the `forwardError` flag: a `file` event
runs the registered `file` listener (registered only when `fallthrough`
holds); an `error` event leaves the flag unchanged. -/
def forwardStep (fallthrough fwd : Bool) : Event → Bool
  | Event.file => onFileEvent fallthrough fwd
  | Event.error _ => fwd

/-- The value of `forwardError` after a sequence of engine events. -/
def finalForward (fallthrough : Bool) (evs : List Event) : Bool :=
  evs.foldl (forwardStep fallthrough) (initForwardError fallthrough)

/-! ## Method gate (lines 137-148) -/

/-- Outcome of the method gate. -/
inductive MethodGateResult where
  | callNext
  | respond (status : Nat) (headers : List (String × String)) (body : String)
  | proceed
deriving DecidableEq

/-- Source translation of lines 137-148: non-GET/HEAD methods either fall
through or receive a 405 with `Allow: GET, HEAD`, `Content-Length: 0` and
an empty body; GET/HEAD proceed into the pipeline. -/
def methodGate (method : String) (fallthrough : Bool) : MethodGateResult :=
  if method != "GET" && method != "HEAD" then
    if fallthrough then MethodGateResult.callNext
    else MethodGateResult.respond 405
      [("Allow", "GET, HEAD"), ("Content-Length", "0")] ""
  else MethodGateResult.proceed

/-! ## Directory disposition (lines 240-250, 260-271, 278-316) -/

/-- Number of leading slash characters, i.e. the `i` computed by the loop
in `collapseLeadingSlashes` (lines 241-245). -/
def countLeading : List Char → Nat
  | [] => 0
  | c :: cs => if c = '/' then countLeading cs + 1 else 0

/-- List form of `collapseLeadingSlashes`:
`i > 1 ? '/' + str.substr(i) : str` (lines 247-249). -/
def collapseList (l : List Char) : List Char :=
  let i := countLeading l
  if 1 < i then '/' :: l.drop i else l

/-- Source translation of `collapseLeadingSlashes(str)` (lines 240-250). -/
def collapseLeadingSlashes (str : String) : String :=
  String.mk (collapseList str.toList)

/-- Number of trailing slash characters of a string. -/
def countTrailingSlashes (s : String) : Nat := countLeading s.toList.reverse

/-- Source translation of `createHtmlDocument(title, body)`
(lines 260-271). -/
def createHtmlDocument (title body : String) : String :=
  "<!DOCTYPE html>\n" ++
    "<html lang=\"en\">\n" ++
    "<head>\n" ++
    "<meta charset=\"utf-8\">\n" ++
    "<title>" ++ title ++ "</title>\n" ++
    "</head>\n" ++
    "<body>\n" ++
    "<pre>" ++ body ++ "</pre>\n" ++
    "</body>\n" ++
    "</html>\n"

/-- `url.format(originalUrl)` after `originalUrl.path = null` (lines
300-304): the URL is rebuilt from its pathname followed by its search
string (the search string carries its leading question mark). -/
def formatUrl (pathname search : String) : String := pathname ++ search

/-- A single-quote character as a string (code point 39). -/
def squote : String := String.singleton (Char.ofNat 39)

/-- The literal header value `default-src` space quote `none` quote set on
line 311. -/
def cspValue : String := "default-src " ++ squote ++ "none" ++ squote

/-- What a directory listener does: either push a status into the engine's
own error path (`this.error(404)`) or emit a finished redirect response. -/
inductive DirOutcome where
  | engineError (status : Nat)
  | response (status : Nat) (headers : List (String × String)) (body : String)
deriving DecidableEq

/-- Source translation of `createNotFoundDirectoryListener` (lines
278-282). -/
def notFoundDirectoryListener : DirOutcome := DirOutcome.engineError 404

/-- Source translation of `createRedirectDirectoryListener` (lines
289-316).  `encodeUrl` and `escapeHtml` abstract the npm packages of the
same names; `hasTrailingSlash` is the engine's report on the request path;
`origPathname`/`origSearch` are the parsed original URL.  `Content-Length`
is `Buffer.byteLength(doc)`, i.e. the UTF-8 byte size of the body. -/
def redirectDirectoryListener (encodeUrl escapeHtml : String → String)
    (hasTrailingSlash : Bool) (origPathname origSearch : String) : DirOutcome :=
  if hasTrailingSlash then DirOutcome.engineError 404
  else
    let loc := encodeUrl
      (formatUrl (collapseLeadingSlashes (origPathname ++ "/")) origSearch)
    let doc := createHtmlDocument "Redirecting" ("Redirecting to " ++ escapeHtml loc)
    DirOutcome.response 301
      [("Content-Type", "text/html; charset=UTF-8"),
       ("Content-Length", toString doc.utf8ByteSize),
       ("Content-Security-Policy", cspValue),
       ("X-Content-Type-Options", "nosniff"),
       ("Location", loc)]
      doc

/-! ## Headers listener (lines 195-211) -/

/-- JS `s.endsWith(suf)` specialised to what the regex test needs. -/
def strEndsWith (s suf : String) : Bool :=
  decide (suf.toList.length ≤ s.toList.length) &&
  decide (s.toList.drop (s.toList.length - suf.toList.length) = suf.toList)

/-- Source line 202: `precompressed.replace(/\.(br|gz)$/,'')` — drop a
final `.br` or `.gz` suffix, otherwise leave the string unchanged. -/
def stripCompressionSuffix (s : String) : String :=
  if strEndsWith s ".br" || strEndsWith s ".gz" then
    String.mk (s.toList.take (s.toList.length - 3))
  else s

/-- One step performed by the `headers` listener, in execution order:
either a `res.setHeader(name, value)` call or the invocation of the
user-supplied `setHeaders` callback. -/
inductive HeaderAction where
  | set (name value : String)
  | callSetHeaders (filePath : String) (statSize : Nat)
deriving DecidableEq

/-- Source translation of the `headers` listener `onHeaders(res, filePath,
stat)` (lines 195-211), as the ordered list of actions it performs.
`mimeLookup` abstracts `send.mime.lookup` together with the surrounding
try/catch: `none` means the lookup returned a falsy value or threw, in
which case no `Content-Type` is set.  `hasSetHeaders` records whether the
user configured a `setHeaders` callback. -/
def onHeaders (mimeLookup : String → Option String)
    (precompressed encoding : Option String) (hasSetHeaders : Bool)
    (filePath : String) (statSize : Nat) : List HeaderAction :=
  [HeaderAction.set "Vary" "Accept-Encoding"] ++
  (match precompressed, encoding with
   | some pc, some enc =>
       (match mimeLookup (stripCompressionSuffix pc) with
        | some t => [HeaderAction.set "Content-Type" t]
        | none => []) ++
       [HeaderAction.set "Content-Encoding" enc,
        HeaderAction.set "Content-Length" (toString statSize)]
   | _, _ => []) ++
  (if hasSetHeaders then [HeaderAction.callSetHeaders filePath statSize] else [])

/-! ## Lemmas about the forward-error flag -/

theorem foldl_forwardStep_stays_true (evs : List Event) :
    evs.foldl (forwardStep true) true = true := by
  induction evs with
  | nil => rfl
  | cons e rest ih => cases e <;> simpa [forwardStep, onFileEvent] using ih

theorem foldl_forwardStep_file_mem (b : Bool) (evs : List Event)
    (h : Event.file ∈ evs) : evs.foldl (forwardStep true) b = true := by
  induction evs generalizing b with
  | nil => cases h
  | cons e rest ih =>
      cases e with
      | file =>
          simpa [forwardStep, onFileEvent] using foldl_forwardStep_stays_true rest
      | error sc =>
          have hrest : Event.file ∈ rest := by
            rcases List.mem_cons.mp h with h1 | h1
            · cases h1
            · exact h1
          simpa [forwardStep] using ih b hrest

theorem foldl_forwardStep_no_file (ft : Bool) (b : Bool) (evs : List Event)
    (h : Event.file ∉ evs) : evs.foldl (forwardStep ft) b = b := by
  induction evs generalizing b with
  | nil => rfl
  | cons e rest ih =>
      cases e with
      | file => exact absurd (List.mem_cons_self _ _) h
      | error sc =>
          have hrest : Event.file ∉ rest := fun hm => h (List.mem_cons_of_mem _ hm)
          simpa [forwardStep] using ih b hrest

theorem finalForward_of_file_mem (evs : List Event) (h : Event.file ∈ evs) :
    finalForward true evs = true :=
  foldl_forwardStep_file_mem _ evs h

theorem finalForward_of_no_file (evs : List Event) (h : Event.file ∉ evs) :
    finalForward true evs = false :=
  foldl_forwardStep_no_file true _ evs h

theorem finalForward_fallthrough_disabled (evs : List Event) :
    finalForward false evs = true := by
  have step : ∀ (b : Bool) (e : Event), forwardStep false b e = b := by
    intro b e
    cases e <;> simp [forwardStep, onFileEvent]
  have : ∀ (l : List Event) (b : Bool), l.foldl (forwardStep false) b = b := by
    intro l
    induction l with
    | nil => intro b; rfl
    | cons e rest ih => intro b; simp [List.foldl_cons, step b e, ih b]
  simpa [finalForward, initForwardError] using this evs true

/-! ## Claim theorems -/

/-- Claim C3: once the streaming engine has emitted a `file` notification,
every subsequent `error` notification is forwarded to the next-handler
with the error value, even with fallthrough enabled and regardless of the
error's status code.  `evs` is the event history preceding the error, so
`Event.file ∈ evs` states that the file notification occurred earlier. -/
theorem error_after_file_forwarded (evs : List Event) (sc : StatusCode)
    (h : Event.file ∈ evs) :
    onErrorEvent (finalForward true evs) sc = NextCall.withErr sc := by
  rw [finalForward_of_file_mem evs h]
  simp [onErrorEvent]

theorem error_after_file_forwarded_witness :
    onErrorEvent (finalForward true [Event.file]) (some 500) =
      NextCall.withErr (some 500) :=
  error_after_file_forwarded [Event.file] (some 500) (by decide)

/-- Claim C10: with fallthrough enabled and no prior `file` notification,
an engine error whose `statusCode` is absent or not a number is forwarded
to the next-handler (the suppression test `err.statusCode < 500` is false
for a non-numeric status). -/
theorem error_without_status_forwarded (evs : List Event)
    (h : Event.file ∉ evs) :
    onErrorEvent (finalForward true evs) none = NextCall.withErr none := by
  rw [finalForward_of_no_file evs h]
  simp [onErrorEvent, statusCodeLt500]

theorem error_without_status_forwarded_witness :
    onErrorEvent (finalForward true []) none = NextCall.withErr none :=
  error_without_status_forwarded [] (by decide)

/-- Claim C1, counterexample: with fallthrough enabled and no prior `file`
notification, a 403 error — a client-class status that is not a not-found
condition — is NOT forwarded: the listener invokes the next-handler with
no argument, refuting the claim that only not-found-style errors are
suppressed. -/
theorem client_error_suppressed_cex :
    onErrorEvent (finalForward true []) (some 403) = NextCall.noArg ∧
    NextCall.noArg ≠ NextCall.withErr (some 403) := by
  decide

/-- Claim C1, amended: with fallthrough enabled and no prior `file`
notification, every error whose numeric status code is below 500 (any
client-class error, 403 and 404 alike) is suppressed by invoking the
next-handler with no argument; an error with status at least 500 is
forwarded whatever the forward flag; and with fallthrough disabled every
error is forwarded. -/
theorem error_dispatch_amended (evs : List Event) (sc : StatusCode) (n : Nat) :
    (Event.file ∉ evs → sc = some n → n < 500 →
       onErrorEvent (finalForward true evs) sc = NextCall.noArg) ∧
    (sc = some n → 500 ≤ n →
       ∀ fwd : Bool, onErrorEvent fwd sc = NextCall.withErr sc) ∧
    (onErrorEvent (finalForward false evs) sc = NextCall.withErr sc) := by
  refine ⟨?_, ?_, ?_⟩
  · intro hf hsc hn
    rw [finalForward_of_no_file evs hf, hsc]
    simp [onErrorEvent, statusCodeLt500, hn]
  · intro hsc hn fwd
    have : statusCodeLt500 sc = false := by
      rw [hsc]
      simp [statusCodeLt500, Nat.not_lt.mpr hn]
    simp [onErrorEvent, this]
  · rw [finalForward_fallthrough_disabled evs]
    simp [onErrorEvent]

theorem error_dispatch_amended_witness :
    onErrorEvent (finalForward true []) (some 403) = NextCall.noArg ∧
    onErrorEvent false (some 500) = NextCall.withErr (some 500) ∧
    onErrorEvent (finalForward false []) (some 404) = NextCall.withErr (some 404) :=
  ⟨(error_dispatch_amended [] (some 403) 403).1 (by decide) rfl (by decide),
   (error_dispatch_amended [] (some 500) 500).2.1 rfl (by decide) false,
   (error_dispatch_amended [] (some 404) 404).2.2⟩

/-- Claim C8: a request whose method is neither GET nor HEAD falls through
to the next-handler (no response) when fallthrough is enabled, and
otherwise ends the response with status 405, headers `Allow: GET, HEAD`
and `Content-Length: 0`, an empty body, and no next-handler call. -/
theorem methodGate_non_get_head (method : String) (fallthrough : Bool)
    (h1 : method ≠ "GET") (h2 : method ≠ "HEAD") :
    (fallthrough = true → methodGate method fallthrough = MethodGateResult.callNext) ∧
    (fallthrough = false → methodGate method fallthrough =
       MethodGateResult.respond 405
         [("Allow", "GET, HEAD"), ("Content-Length", "0")] "") := by
  have hb : (method != "GET" && method != "HEAD") = true := by
    simp [bne_iff_ne, h1, h2]
  constructor <;> intro hf <;> subst hf <;> simp [methodGate, hb]

theorem methodGate_non_get_head_witness :
    methodGate "POST" true = MethodGateResult.callNext ∧
    methodGate "POST" false = MethodGateResult.respond 405
      [("Allow", "GET, HEAD"), ("Content-Length", "0")] "" :=
  ⟨(methodGate_non_get_head "POST" true (by decide) (by decide)).1 rfl,
   (methodGate_non_get_head "POST" false (by decide) (by decide)).2 rfl⟩

/-- Claim C7: under the redirect directory policy, a directory request
whose originally-requested URL already ends in a trailing slash is pushed
into the engine's error path with status 404 and never produces a
redirect response. -/
theorem redirect_trailing_slash_404 (encodeUrl escapeHtml : String → String)
    (p q : String) :
    redirectDirectoryListener encodeUrl escapeHtml true p q =
      DirOutcome.engineError 404 ∧
    ∀ (st : Nat) (hs : List (String × String)) (body : String),
      redirectDirectoryListener encodeUrl escapeHtml true p q ≠
        DirOutcome.response st hs body := by
  refine ⟨rfl, ?_⟩
  intro st hs body hcontra
  rw [show redirectDirectoryListener encodeUrl escapeHtml true p q =
        DirOutcome.engineError 404 from rfl] at hcontra
  cases hcontra

/-- Claim C2: encoding negotiation.  Write `cand` for the candidate after
index substitution and `abs` for its absolute path.  (1) If the client
accepts brotli (the header contains the token `br` — in particular when it
accepts both encodings) and the `.br` sibling exists, the negotiator picks
the `.br` sibling with tag `br` (brotli).  (2) If the client accepts gzip
and the `.gz` sibling exists but the brotli branch fails (brotli not
accepted, or no `.br` sibling), it picks the `.gz` sibling with tag
`gzip`.  (3) If neither accepted sibling exists, it picks none. -/
theorem negotiate_encoding_choice (fsExists : String → Bool)
    (join : String → String → String) (root path ae : String) :
    (strContains ae "br" = true →
       fsExists (join root (indexCandidate path) ++ ".br") = true →
       negotiate fsExists join root path ae =
         some (indexCandidate path ++ ".br", "br")) ∧
    (strContains ae "gzip" = true →
       fsExists (join root (indexCandidate path) ++ ".gz") = true →
       (strContains ae "br" = false ∨
          fsExists (join root (indexCandidate path) ++ ".br") = false) →
       negotiate fsExists join root path ae =
         some (indexCandidate path ++ ".gz", "gzip")) ∧
    ((strContains ae "br" = false ∨
        fsExists (join root (indexCandidate path) ++ ".br") = false) →
     (strContains ae "gzip" = false ∨
        fsExists (join root (indexCandidate path) ++ ".gz") = false) →
     negotiate fsExists join root path ae = none) := by
  refine ⟨?_, ?_, ?_⟩
  · intro h1 h2
    simp [negotiate, h1, h2]
  · intro h1 h2 h3
    rcases h3 with h3 | h3 <;> simp [negotiate, h1, h2, h3]
  · intro h1 h2
    rcases h1 with h1 | h1 <;> rcases h2 with h2 | h2 <;>
      simp [negotiate, h1, h2]

theorem negotiate_encoding_choice_witness :
    negotiate (fun s => s == "/r/app.js.br" || s == "/r/app.js.gz")
      (fun a b => a ++ b) "/r" "/app.js" "gzip, br" =
      some (indexCandidate "/app.js" ++ ".br", "br") :=
  (negotiate_encoding_choice (fun s => s == "/r/app.js.br" || s == "/r/app.js.gz")
    (fun a b => a ++ b) "/r" "/app.js" "gzip, br").1 (by decide) (by decide)

/-- Claim C4: the path cache is NOT the memoized identity.  The composite
key `root ++ "::" ++ pathname` is not injective in the pair: after caching
pathname `b::c` under root `a`, a lookup of pathname `c` under root
`a::b` hits the same key `a::b::c` and returns `b::c` instead of `c`, so
the path handed to the streaming engine differs from the one a cache-free
dispatcher would use. -/
theorem cache_not_identity :
    (getCachedPath "c" "a::b" (getCachedPath "b::c" "a" []).2).1 = "b::c" ∧
    (getCachedPath "c" "a::b" (getCachedPath "b::c" "a" []).2).1 ≠ "c" ∧
    sendPath none (getCachedPath "c" "a::b" (getCachedPath "b::c" "a" []).2).1 ≠
      sendPath none "c" := by
  decide

/-- Claim C5: the key-isolation invariant fails.  The keys built from
(pathname `b::c`, root `a`) and (pathname `c`, root `a::b`) coincide, and
a lookup under the second pair returns the value stored under the first —
a value stored under a different root and pathname. -/
theorem cache_cross_key_value :
    cacheKey "b::c" "a" = cacheKey "c" "a::b" ∧
    (getCachedPath "b::c" "a" []).2 = [(cacheKey "b::c" "a", "b::c")] ∧
    (getCachedPath "c" "a::b" [(cacheKey "b::c" "a", "b::c")]).1 = "b::c" ∧
    ("b::c", "a") ≠ ("c", "a::b") := by
  decide

/-! ## Positive cache lemmas (the invariants of C5 that do hold) -/

theorem getCachedPath_hit (pathname root : String) (c : Cache) (v : String)
    (h : cacheGet c (cacheKey pathname root) = some v) :
    getCachedPath pathname root c =
      (v, cacheDelete c (cacheKey pathname root) ++
            [(cacheKey pathname root, v)]) := by
  simp [getCachedPath, h, cacheSet]

theorem getCachedPath_miss_at_capacity (pathname root : String) (c : Cache)
    (h : cacheGet c (cacheKey pathname root) = none)
    (hlen : MAX_CACHE_SIZE ≤ c.length) :
    getCachedPath pathname root c =
      (pathname, c.tail ++ [(cacheKey pathname root, pathname)]) := by
  simp [getCachedPath, h, hlen, cacheSet]

theorem getCachedPath_miss_under_capacity (pathname root : String) (c : Cache)
    (h : cacheGet c (cacheKey pathname root) = none)
    (hlen : ¬ MAX_CACHE_SIZE ≤ c.length) :
    getCachedPath pathname root c =
      (pathname, c ++ [(cacheKey pathname root, pathname)]) := by
  simp [getCachedPath, h, hlen, cacheSet]

theorem cacheDelete_length_lt (c : Cache) (k v : String)
    (h : cacheGet c k = some v) :
    (cacheDelete c k).length < c.length := by
  have hfind : ∃ a, c.find? (fun e => e.1 == k) = some a ∧ a.2 = v := by
    cases hf : c.find? (fun e => e.1 == k) with
    | none => simp [cacheGet, hf] at h
    | some a => exact ⟨a, rfl, by simpa [cacheGet, hf] using h⟩
  rcases hfind with ⟨a, hf, _⟩
  have hmem : a ∈ c := List.mem_of_find?_eq_some hf
  have hbeq := List.find?_some hf
  refine List.length_filter_lt_length_iff_exists.mpr ⟨a, hmem, ?_⟩
  simp only [Bool.not_eq_true]
  simpa using hbeq

theorem getCachedPath_size_bound (pathname root : String) (c : Cache)
    (h : c.length ≤ MAX_CACHE_SIZE) :
    ((getCachedPath pathname root c).2).length ≤ MAX_CACHE_SIZE := by
  cases hget : cacheGet c (cacheKey pathname root) with
  | some v =>
      rw [getCachedPath_hit pathname root c v hget]
      have hlt := cacheDelete_length_lt c (cacheKey pathname root) v hget
      simp only [List.length_append, List.length_cons, List.length_nil]
      omega
  | none =>
      by_cases hcap : MAX_CACHE_SIZE ≤ c.length
      · rw [getCachedPath_miss_at_capacity pathname root c hget hcap]
        have htail : c.tail.length = c.length - 1 := by simp [List.length_tail]
        have hone : 1 ≤ c.length :=
          le_trans (by simp [MAX_CACHE_SIZE]) hcap
        simp only [List.length_append, List.length_cons, List.length_nil, htail]
        omega
      · rw [getCachedPath_miss_under_capacity pathname root c hget hcap]
        simp only [List.length_append, List.length_cons, List.length_nil]
        omega

/-! ## Suffix stripping lemmas (for the headers listener) -/

theorem strToList_append (s t : String) :
    (s ++ t).toList = s.toList ++ t.toList :=
  String.data_append s t

theorem strEndsWith_append (c suf : String) :
    strEndsWith (c ++ suf) suf = true := by
  unfold strEndsWith
  rw [strToList_append]
  have h1 : (c.toList ++ suf.toList).length - suf.toList.length =
      c.toList.length := by
    simp [List.length_append]
  rw [h1, List.drop_left]
  simp [List.length_append]

theorem strip_append_br (c : String) :
    stripCompressionSuffix (c ++ ".br") = c := by
  unfold stripCompressionSuffix
  rw [strEndsWith_append c ".br"]
  simp only [Bool.true_or, if_true]
  rw [strToList_append]
  have h1 : (c.toList ++ ".br".toList).length - 3 = c.toList.length := by
    have h3 : (".br".toList).length = 3 := rfl
    simp [List.length_append, h3]
  rw [h1, List.take_left]
  rfl

theorem strip_append_gz (c : String) :
    stripCompressionSuffix (c ++ ".gz") = c := by
  unfold stripCompressionSuffix
  rw [strEndsWith_append c ".gz"]
  simp only [Bool.or_true, if_true]
  rw [strToList_append]
  have h1 : (c.toList ++ ".gz".toList).length - 3 = c.toList.length := by
    have h3 : (".gz".toList).length = 3 := rfl
    simp [List.length_append, h3]
  rw [h1, List.take_left]
  rfl


/-- Claim C9: the headers listener (1) in the precompressed case emits, in
order, `Vary: Accept-Encoding`, then `Content-Type` set to the MIME type
of the original non-suffixed path, then `Content-Encoding` set to the
negotiated tag, then `Content-Length` set to the served file's size, and
finally the user `setHeaders` callback; (2) sets `Vary: Accept-Encoding`
first in every case; (3) whenever a `setHeaders` callback is configured it
is invoked last, after every built-in header write. -/
theorem onHeaders_precompressed (mimeLookup : String → Option String)
    (cand enc fp pc t : String) (sz : Nat)
    (hpc : pc = cand ++ ".br" ∨ pc = cand ++ ".gz")
    (ht : mimeLookup cand = some t) :
    onHeaders mimeLookup (some pc) (some enc) true fp sz =
      [HeaderAction.set "Vary" "Accept-Encoding",
       HeaderAction.set "Content-Type" t,
       HeaderAction.set "Content-Encoding" enc,
       HeaderAction.set "Content-Length" (toString sz),
       HeaderAction.callSetHeaders fp sz] ∧
    (∀ (pre en : Option String) (hs : Bool) (fp2 : String) (sz2 : Nat),
       (onHeaders mimeLookup pre en hs fp2 sz2).head? =
         some (HeaderAction.set "Vary" "Accept-Encoding")) ∧
    (∀ (pre en : Option String) (fp2 : String) (sz2 : Nat),
       (onHeaders mimeLookup pre en true fp2 sz2).getLast? =
         some (HeaderAction.callSetHeaders fp2 sz2)) := by
  refine ⟨?_, ?_, ?_⟩
  · have hstrip : stripCompressionSuffix pc = cand := by
      rcases hpc with h | h
      · rw [h]; exact strip_append_br cand
      · rw [h]; exact strip_append_gz cand
    simp [onHeaders, hstrip, ht]
  · intro pre en hs fp2 sz2
    cases pre <;> cases en <;> simp [onHeaders]
  · intro pre en fp2 sz2
    cases pre with
    | none => simp [onHeaders]
    | some pc2 =>
        cases en with
        | none => simp [onHeaders]
        | some e2 =>
            rcases hml : mimeLookup (stripCompressionSuffix pc2) with _ | t2 <;>
              simp [onHeaders, hml]

theorem onHeaders_precompressed_witness :
    onHeaders
      (fun s => if s == "/app.js" then some "application/javascript" else none)
      (some "/app.js.br") (some "br") true "/r/app.js.br" 100 =
      [HeaderAction.set "Vary" "Accept-Encoding",
       HeaderAction.set "Content-Type" "application/javascript",
       HeaderAction.set "Content-Encoding" "br",
       HeaderAction.set "Content-Length" (toString 100),
       HeaderAction.callSetHeaders "/r/app.js.br" 100] :=
  (onHeaders_precompressed
    (fun s => if s == "/app.js" then some "application/javascript" else none)
    "/app.js" "br" "/r/app.js.br" "/app.js.br" "application/javascript" 100
    (Or.inl (by decide)) (by decide)).1

/-! ## Slash-counting lemmas for the redirect Location -/

theorem countLeading_le_length (l : List Char) : countLeading l ≤ l.length := by
  induction l with
  | nil => simp [countLeading]
  | cons c cs ih =>
      by_cases hc : c = '/'
      · simp only [countLeading, hc, if_true, List.length_cons]
        omega
      · simp [countLeading, hc]

theorem countLeading_replicate (n : Nat) :
    countLeading (List.replicate n '/') = n := by
  induction n with
  | zero => rfl
  | succ k ih => simp [List.replicate, countLeading, ih]

theorem countLeading_split (l : List Char) :
    l = List.replicate (countLeading l) '/' ++ l.drop (countLeading l) := by
  induction l with
  | nil => rfl
  | cons c cs ih =>
      by_cases hc : c = '/'
      · subst hc
        simp only [countLeading, if_true, List.replicate, List.drop_succ_cons,
          List.cons_append]
        exact congrArg _ ih
      · simp [countLeading, hc]

theorem countLeading_drop_head (l : List Char) :
    l.drop (countLeading l) = [] ∨
      ∃ c cs, l.drop (countLeading l) = c :: cs ∧ c ≠ '/' := by
  induction l with
  | nil => left; rfl
  | cons c cs ih =>
      by_cases hc : c = '/'
      · subst hc
        simpa [countLeading] using ih
      · right
        exact ⟨c, cs, by simp [countLeading, hc], hc⟩

theorem countLeading_append (a b : List Char) :
    countLeading (a ++ b) =
      if countLeading a = a.length then a.length + countLeading b
      else countLeading a := by
  induction a with
  | nil => simp [countLeading]
  | cons c cs ih =>
      rw [List.cons_append]
      by_cases hc : c = '/'
      · subst hc
        rw [show countLeading ('/' :: (cs ++ b)) = countLeading (cs ++ b) + 1 from by
              simp [countLeading],
            show countLeading ('/' :: cs) = countLeading cs + 1 from by
              simp [countLeading],
            ih, List.length_cons]
        by_cases h2 : countLeading cs = cs.length
        · rw [if_pos h2, if_pos (by omega : countLeading cs + 1 = cs.length + 1)]
          omega
        · rw [if_neg h2, if_neg (by omega : ¬ countLeading cs + 1 = cs.length + 1)]
      · rw [show countLeading (c :: (cs ++ b)) = 0 from by simp [countLeading, hc],
            show countLeading (c :: cs) = 0 from by simp [countLeading, hc]]
        have hlen : ¬ (0 : Nat) = (c :: cs).length := by simp
        rw [if_neg hlen]

theorem countLeading_eq_length_all_slash (l : List Char)
    (h : countLeading l = l.length) : ∀ x ∈ l, x = '/' := by
  induction l with
  | nil => intro x hx; cases hx
  | cons c cs ih =>
      by_cases hc : c = '/'
      · subst hc
        intro x hx
        rcases List.mem_cons.mp hx with rfl | hx2
        · rfl
        · refine ih ?_ x hx2
          simpa [countLeading] using h
      · exfalso
        have := countLeading_le_length cs
        simp only [countLeading, hc, if_false, List.length_cons] at h
        omega

theorem collapseList_leading (l : List Char) (h : 1 ≤ countLeading l) :
    countLeading (collapseList l) = 1 := by
  unfold collapseList
  by_cases hi : 1 < countLeading l
  · simp only [hi, if_true]
    rcases countLeading_drop_head l with hd | ⟨c, cs, hd, hc⟩
    · rw [hd]
      rfl
    · rw [hd]
      simp [countLeading, hc]
  · simp only [hi, if_false]
    omega

theorem collapseList_trailing (m : List Char)
    (h : countLeading m.reverse = 1) :
    countLeading (collapseList m).reverse = 1 := by
  unfold collapseList
  by_cases hi : 1 < countLeading m
  · simp only [hi, if_true]
    rcases countLeading_drop_head m with hd | ⟨r, rs, hd, hr⟩
    · exfalso
      have hsplit := countLeading_split m
      rw [hd, List.append_nil] at hsplit
      rw [hsplit, List.reverse_replicate, countLeading_replicate] at h
      omega
    · have hsplit := countLeading_split m
      rw [hd] at hsplit
      have hrev : m.reverse =
          (r :: rs).reverse ++ List.replicate (countLeading m) '/' := by
        conv_lhs => rw [hsplit]
        rw [List.reverse_append, List.reverse_replicate]
      have hne : ¬ countLeading (r :: rs).reverse = (r :: rs).reverse.length := by
        intro heq
        exact hr (countLeading_eq_length_all_slash _ heq r
          (List.mem_reverse.mpr (List.mem_cons_self r rs)))
      have h1 : countLeading (r :: rs).reverse = 1 := by
        rw [hrev, countLeading_append, if_neg hne] at h
        exact h
      rw [hd, show ('/' :: r :: rs).reverse = (r :: rs).reverse ++ ['/'] from by
        simp]
      rw [countLeading_append, if_neg hne]
      exact h1
  · simp only [hi, if_false]
    exact h

theorem collapseLeadingSlashes_toList (s : String) :
    (collapseLeadingSlashes s).toList = collapseList s.toList := rfl

theorem countTrailing_append_slash (p : String)
    (hp : countTrailingSlashes p = 0) :
    countLeading (p ++ "/").toList.reverse = 1 := by
  have hl : (p ++ "/").toList = p.toList ++ ['/'] := strToList_append p "/"
  have hp' : countLeading p.toList.reverse = 0 := hp
  rw [hl, List.reverse_append]
  rw [show (['/'] : List Char).reverse ++ p.toList.reverse =
        '/' :: p.toList.reverse from by simp]
  rw [show countLeading ('/' :: p.toList.reverse) =
        countLeading p.toList.reverse + 1 from by simp [countLeading]]
  omega

/-- Claim C6: under the redirect directory policy, when the resolved
target is a directory and the originally-requested URL does not end in a
slash, the listener emits a 301 whose `Location` is the percent-encoded
reformatted original URL — its pathname with one slash appended and runs
of leading slashes collapsed — whose body is the minimal HTML document
around the HTML-escaped destination, with `Content-Type:
text/html; charset=UTF-8`, `Content-Length` equal to the body's UTF-8
byte length, `Content-Security-Policy: default-src (quote)none(quote)`
and `X-Content-Type-Options: nosniff`.  The second and third conjuncts
state the slash normalisation: the new pathname ends in exactly one
slash, and a nonempty run of leading slashes is collapsed to exactly
one. -/
theorem redirect_response_format (encodeUrl escapeHtml : String → String)
    (p q : String) (hp : countTrailingSlashes p = 0) :
    (redirectDirectoryListener encodeUrl escapeHtml false p q =
      DirOutcome.response 301
        [("Content-Type", "text/html; charset=UTF-8"),
         ("Content-Length", toString (createHtmlDocument "Redirecting"
            ("Redirecting to " ++ escapeHtml (encodeUrl (formatUrl
               (collapseLeadingSlashes (p ++ "/")) q)))).utf8ByteSize),
         ("Content-Security-Policy", cspValue),
         ("X-Content-Type-Options", "nosniff"),
         ("Location", encodeUrl (formatUrl (collapseLeadingSlashes (p ++ "/")) q))]
        (createHtmlDocument "Redirecting"
          ("Redirecting to " ++ escapeHtml (encodeUrl (formatUrl
             (collapseLeadingSlashes (p ++ "/")) q))))) ∧
    countTrailingSlashes (collapseLeadingSlashes (p ++ "/")) = 1 ∧
    (1 ≤ countLeading (p ++ "/").toList →
       countLeading (collapseLeadingSlashes (p ++ "/")).toList = 1) := by
  refine ⟨rfl, ?_, ?_⟩
  · have h1 := countTrailing_append_slash p hp
    unfold countTrailingSlashes
    rw [collapseLeadingSlashes_toList]
    exact collapseList_trailing _ h1
  · intro hlead
    rw [collapseLeadingSlashes_toList]
    exact collapseList_leading _ hlead

theorem redirect_response_format_witness :
    countTrailingSlashes "/dir" = 0 ∧
    countTrailingSlashes (collapseLeadingSlashes ("/dir" ++ "/")) = 1 ∧
    countLeading (collapseLeadingSlashes ("//evil.com" ++ "/")).toList = 1 :=
  ⟨by decide,
   (redirect_response_format id id "/dir" "" (by decide)).2.1,
   (redirect_response_format id id "//evil.com" "" (by decide)).2.2 (by decide)⟩

end ServeStatic
